import Mathlib

/-!
Shallow embedding of the `class-6-nested-queries` GraphQL example.

The repository stores two JavaScript `Map`s (`authors`, `posts`) keyed by
numeric id and exposes four resolvers plus one mutation:

  Query.posts      : () => Array.from(posts.values())
  Query.author     : (_, {id}) => authors.get(Number(id)) or throw
  Mutation.upvotePost : (_, {postId}) => posts.get(Number(postId)) or throw;
                        post.votes += 1; return post
  Author.posts     : (author) => Array.from(posts.values())
                        .filter(p => p.authorId === author.id)
  Post.author      : (post) => authors.get(post.authorId)

A JS `Map` preserves insertion order and has unique keys; it is embedded as
an association list `List (Nat × α)` where `get` is `find?` on the key and
`values()` is the list of second components in order.  The in-place
mutation `post.votes += 1` is embedded as replacing the entry for that key,
which leaves the insertion order untouched, exactly as the JS mutation
does.  A thrown `Error` is embedded as `Except.error ResolveError.notFound`
(the spec's NotFound kind; the human-readable message is elided).
-/

structure Author where
  id : Nat
  firstName : String
  lastName : String
deriving DecidableEq, Repr

structure Post where
  id : Nat
  authorId : Nat
  title : String
  votes : Nat
deriving DecidableEq, Repr

abbrev AuthorStore := List (Nat × Author)

abbrev PostStore := List (Nat × Post)

/-- `Map.get(k)`: the value of the first entry whose key is `k`. -/
def mapGet {α : Type} (store : List (Nat × α)) (k : Nat) : Option α :=
  (store.find? (fun kv => kv.1 == k)).map Prod.snd

/-- `Array.from(m.values())`: the values in insertion order. -/
def mapValues {α : Type} (store : List (Nat × α)) : List α :=
  store.map Prod.snd

/-- In-place update of the value stored under key `k` (the JS
`post.votes += 1` mutates the object held in the map, leaving the key set
and the insertion order unchanged). -/
def mapSet {α : Type} (store : List (Nat × α)) (k : Nat) (v : α) :
    List (Nat × α) :=
  store.map (fun kv => if kv.1 == k then (kv.1, v) else kv)

/-- Seed author 1 from `data.js`. -/
def author1 : Author := { id := 1, firstName := "Tom", lastName := "Coleman" }

/-- Seed author 2 from `data.js`. -/
def author2 : Author := { id := 2, firstName := "Sashko", lastName := "Stubailo" }

/-- Seed author 3 from `data.js`. -/
def author3 : Author := { id := 3, firstName := "Mikhail", lastName := "Novikov" }

/-- Seed post 1 from `data.js`. -/
def post1 : Post := { id := 1, authorId := 1, title := "Introduction to GraphQL", votes := 2 }

/-- Seed post 2 from `data.js`. -/
def post2 : Post := { id := 2, authorId := 2, title := "Welcome to Meteor", votes := 3 }

/-- Seed post 3 from `data.js`. -/
def post3 : Post := { id := 3, authorId := 2, title := "Advanced GraphQL", votes := 1 }

/-- Seed post 4 from `data.js`. -/
def post4 : Post := { id := 4, authorId := 3, title := "Launchpad is Cool", votes := 7 }

/-- The seed `authors` map from `data.js`. -/
def authors : AuthorStore := [(1, author1), (2, author2), (3, author3)]

/-- The seed `posts` map from `data.js`. -/
def posts : PostStore := [(1, post1), (2, post2), (3, post3), (4, post4)]

/-- The one error kind the resolvers raise (`throw new Error(...)` on a
missing id).  The message string is elided. -/
inductive ResolveError where
  | notFound
deriving DecidableEq, Repr

/-- `Query.author` after numeric coercion of the id: `authors.get(id)`,
throwing when absent (`Number(n) = n` for an integer id `n`). -/
def getAuthor (A : AuthorStore) (id : Nat) : Except ResolveError Author :=
  match mapGet A id with
  | some a => Except.ok a
  | none => Except.error ResolveError.notFound

/-- `Query.posts`: `Array.from(posts.values())`. -/
def listPosts (P : PostStore) : List Post :=
  mapValues P

/-- `Mutation.upvotePost` after numeric coercion of the id: look up the
post, throw when absent, otherwise bump `votes` in place and return the
updated post together with the resulting store. -/
def upvotePost (P : PostStore) (postId : Nat) :
    Except ResolveError (Post × PostStore) :=
  match mapGet P postId with
  | none => Except.error ResolveError.notFound
  | some p =>
      let p' : Post := { p with votes := p.votes + 1 }
      Except.ok (p', mapSet P postId p')

/-- `Author.posts`: filter the full post collection by `authorId`. -/
def postsByAuthor (P : PostStore) (a : Author) : List Post :=
  (mapValues P).filter (fun p => p.authorId == a.id)

/-- `Post.author`: direct keyed lookup; JS returns `undefined` when the
reference dangles, embedded as `none`. -/
def authorOfPost (A : AuthorStore) (p : Post) : Option Author :=
  mapGet A p.authorId

/-- The whole mutable state of the process: both module-level maps. -/
structure SysState where
  authors : AuthorStore
  posts : PostStore
deriving DecidableEq, Repr

/-- The seed state built at process start. -/
def seedState : SysState :=
  { authors := authors, posts := posts }

/-- `Mutation.upvotePost` acting on the whole process state.  The resolver
closure only ever touches the `posts` map. -/
def upvotePostSys (st : SysState) (postId : Nat) :
    Except ResolveError (Post × SysState) :=
  match upvotePost st.posts postId with
  | Except.error e => Except.error e
  | Except.ok (p, P') => Except.ok (p, { st with posts := P' })

/-- The state after a call to `upvotePost`: on a throw the state is
whatever it was before the call. -/
def applyUpvote (st : SysState) (postId : Nat) : SysState :=
  match upvotePostSys st postId with
  | Except.ok (_, st') => st'
  | Except.error _ => st

/-- Run a sequence of `upvotePost` calls. -/
def runUpvotes (st : SysState) : List Nat → SysState
  | [] => st
  | postId :: rest => runUpvotes (applyUpvote st postId) rest

/-- The post store after a call to `upvotePost` (a throw leaves it
unchanged). -/
def applyUpvoteStore (P : PostStore) (postId : Nat) : PostStore :=
  match upvotePost P postId with
  | Except.ok (_, P') => P'
  | Except.error _ => P

/-- The post store after calling `upvotePost postId` a given number of
times in sequence. -/
def upvoteIter (P : PostStore) (postId : Nat) : Nat → PostStore
  | 0 => P
  | n + 1 => applyUpvoteStore (upvoteIter P postId n) postId

/-- A store is well keyed when every stored entity's `id` field equals its
map key (true of the seed data and preserved by every operation). -/
def WellKeyedAuthors (A : AuthorStore) : Prop :=
  ∀ kv, kv ∈ A → (kv.2 : Author).id = kv.1

/-- Every post's `authorId` resolves to an author present in the author
store. -/
def RefIntegrity (A : AuthorStore) (P : PostStore) : Prop :=
  ∀ p, p ∈ mapValues P → ∃ a, mapGet A p.authorId = some a

/-! ### The JS `Number()` coercion on strings

`Query.author` and `Mutation.upvotePost` receive their id argument as a
GraphQL `ID` (a string) and look it up via `Number(id)`.  The ECMAScript
StringToNumber coercion is embedded below: strip whitespace, an empty
remainder means `+0`, an optional sign applies to a decimal literal or
`Infinity`, and an unsigned `0x`/`0o`/`0b` literal gives a non-decimal
integer; anything else is NaN.  Finite results are kept as exact
rationals: IEEE-754 rounding and overflow to `Infinity` are not modelled,
which is exact for every value small enough to occur as a store key in
this program (rounding starts at 2^53, far above the seed ids). -/

/-- Result of `Number()` on a string: NaN, a signed infinity, or a finite
value (an exact rational, see the section comment). -/
inductive JsNum where
  | nan
  | inf (neg : Bool)
  | fin (q : Rat)
deriving DecidableEq, Repr

/-- The ECMAScript StrWhiteSpaceChar set, by code point: tab, LF, VT, FF,
CR, the BOM (U+FEFF), the line separators LS (U+2028) and PS (U+2029), and
every Unicode Space_Separator — space, NBSP, U+1680, U+2000–U+200A,
U+202F, U+205F and U+3000. -/
def jsWhitespace (c : Char) : Bool :=
  c.toNat = 32 || c.toNat = 9 || c.toNat = 10 || c.toNat = 13 ||
    c.toNat = 11 || c.toNat = 12 || c.toNat = 160 || c.toNat = 65279 ||
    c.toNat = 5760 || (8192 ≤ c.toNat && c.toNat ≤ 8202) ||
    c.toNat = 8232 || c.toNat = 8233 || c.toNat = 8239 ||
    c.toNat = 8287 || c.toNat = 12288

/-- Strip leading and trailing `Number()` whitespace. -/
def trimJs (cs : List Char) : List Char :=
  ((cs.dropWhile jsWhitespace).reverse.dropWhile jsWhitespace).reverse

/-- The decimal digit test, by code point (48–57). -/
def isDec (c : Char) : Bool :=
  48 ≤ c.toNat && c.toNat ≤ 57

/-- Value of a decimal digit string (most significant first). -/
def digitsVal (cs : List Char) : Nat :=
  cs.foldl (fun acc c => 10 * acc + (c.toNat - 48)) 0

/-- Value of a single digit in radix 2/8/16 (hex letters allowed). -/
def radixDigitVal (c : Char) : Nat :=
  if 97 ≤ c.toNat ∧ c.toNat ≤ 102 then c.toNat - 87
  else if 65 ≤ c.toNat ∧ c.toNat ≤ 70 then c.toNat - 55
  else c.toNat - 48

/-- Digit test for radix 2/8/16. -/
def isRadixDigit (radix : Nat) (c : Char) : Bool :=
  (isDec c && c.toNat - 48 < radix) ||
    (radix == 16 && ((97 ≤ c.toNat && c.toNat ≤ 102) ||
      (65 ≤ c.toNat && c.toNat ≤ 70)))

/-- Value of a digit string in radix 2/8/16. -/
def radixVal (radix : Nat) (cs : List Char) : Nat :=
  cs.foldl (fun acc c => radix * acc + radixDigitVal c) 0

/-- Apply an exponent `10^(±digitsVal ds)` to a mantissa; `ds` must be a
nonempty run of digits covering the rest of the input. -/
def expApply (ds : List Char) (q : Rat) (neg : Bool) : Option Rat :=
  if ds ≠ [] ∧ ds.all isDec = true then
    some (if neg then q / (10 : Rat) ^ digitsVal ds
          else q * (10 : Rat) ^ digitsVal ds)
  else none

/-- Parse the optional exponent part (`e`/`E`, optional sign, digits) at
the end of a decimal literal whose mantissa value is `q`. -/
def parseExpTail (cs : List Char) (q : Rat) : Option Rat :=
  match cs with
  | [] => some q
  | c :: rest =>
      if c = 'e' ∨ c = 'E' then
        match rest with
        | '+' :: ds => expApply ds q false
        | '-' :: ds => expApply ds q true
        | ds => expApply ds q false
      else none

/-- Parse a StrUnsignedDecimalLiteral other than `Infinity`: digits with
an optional fraction, a bare fraction, or plain digits, each with an
optional exponent, consuming the whole input. -/
def parseDecimal (cs : List Char) : Option Rat :=
  let intPart := cs.takeWhile isDec
  let rest1 := cs.dropWhile isDec
  match rest1 with
  | '.' :: rest2 =>
      let fracPart := rest2.takeWhile isDec
      let rest3 := rest2.dropWhile isDec
      if intPart = [] ∧ fracPart = [] then none
      else parseExpTail rest3
        ((digitsVal intPart : Rat) +
          (digitsVal fracPart : Rat) / (10 : Rat) ^ fracPart.length)
  | _ =>
      if intPart = [] then none
      else parseExpTail rest1 (digitsVal intPart)

/-- Parse `Infinity` or an unsigned decimal literal and apply the sign. -/
def parseSignedTail (cs : List Char) (neg : Bool) : JsNum :=
  if cs = "Infinity".toList then JsNum.inf neg
  else
    match parseDecimal cs with
    | some q => JsNum.fin (if neg then -q else q)
    | none => JsNum.nan

/-- Parse the body of a `0x`/`0o`/`0b` literal. -/
def parseRadix (radix : Nat) (cs : List Char) : JsNum :=
  if cs ≠ [] ∧ cs.all (isRadixDigit radix) = true then
    JsNum.fin (radixVal radix cs)
  else JsNum.nan

/-- A literal starting with `0`: a `0x`/`0o`/`0b` prefix selects a
non-decimal integer literal, anything else falls back to decimal. -/
def jsNumberZero (c : Char) (rest : List Char) : JsNum :=
  match rest with
  | [] => parseSignedTail (c :: rest) false
  | c2 :: rest2 =>
      if c2 = 'x' ∨ c2 = 'X' then parseRadix 16 rest2
      else if c2 = 'o' ∨ c2 = 'O' then parseRadix 8 rest2
      else if c2 = 'b' ∨ c2 = 'B' then parseRadix 2 rest2
      else parseSignedTail (c :: rest) false

/-- Dispatch on the first non-whitespace character: an explicit sign
applies to a decimal literal or `Infinity`, a leading `0` may open a
non-decimal literal, anything else parses as an unsigned decimal. -/
def jsNumberHead (c : Char) (rest : List Char) : JsNum :=
  if c = '+' then parseSignedTail rest false
  else if c = '-' then parseSignedTail rest true
  else if c = '0' then jsNumberZero c rest
  else parseSignedTail (c :: rest) false

/-- StringToNumber after whitespace stripping. -/
def jsNumberCore : List Char → JsNum
  | [] => JsNum.fin 0
  | c :: rest => jsNumberHead c rest

/-- `Number(s)` for a string argument. -/
def jsNumber (s : String) : JsNum :=
  jsNumberCore (trimJs s.toList)

/-- `Map.get` keyed by the result of a `Number()` coercion: a finite value
equal to a stored `Nat` key finds that entry; NaN and the infinities match
no key (JS `Map` key equality is SameValueZero). -/
def mapGetJs {α : Type} (store : List (Nat × α)) (x : JsNum) : Option α :=
  match x with
  | JsNum.fin q => (store.find? (fun kv => decide ((kv.1 : Rat) = q))).map Prod.snd
  | _ => none

/-- In-place update of the entry found under a `Number()` key (see
`mapSet`). -/
def mapSetJs {α : Type} (store : List (Nat × α)) (x : JsNum) (v : α) :
    List (Nat × α) :=
  match x with
  | JsNum.fin q =>
      store.map (fun kv => if (kv.1 : Rat) = q then (kv.1, v) else kv)
  | _ => store

/-- `Query.author` exactly as in the source, on the string id the GraphQL
engine passes: `authors.get(Number(id))`, throwing when absent. -/
def Query.author (A : AuthorStore) (id : String) : Except ResolveError Author :=
  match mapGetJs A (jsNumber id) with
  | some a => Except.ok a
  | none => Except.error ResolveError.notFound

/-- `Mutation.upvotePost` exactly as in the source, on the string id the
GraphQL engine passes: `posts.get(Number(postId))`, throw when absent,
else bump `votes` in place and return the updated post. -/
def Mutation.upvotePost (P : PostStore) (postId : String) :
    Except ResolveError (Post × PostStore) :=
  match mapGetJs P (jsNumber postId) with
  | none => Except.error ResolveError.notFound
  | some p =>
      let p' : Post := { p with votes := p.votes + 1 }
      Except.ok (p', mapSetJs P (jsNumber postId) p')

/-! ### Lemmas about the association-list embedding of `Map` -/

theorem mapGet_eq_none {α : Type} {store : List (Nat × α)} {k : Nat}
    (h : ∀ kv ∈ store, kv.1 ≠ k) : mapGet store k = none := by
  have : store.find? (fun kv => kv.1 == k) = none := by
    rw [List.find?_eq_none]
    intro kv hkv
    simpa using h kv hkv
  simp [mapGet, this]

theorem mapGet_mem {α : Type} {store : List (Nat × α)} {k : Nat} {v : α}
    (h : mapGet store k = some v) : (k, v) ∈ store := by
  unfold mapGet at h
  cases hf : store.find? (fun kv => kv.1 == k) with
  | none => rw [hf] at h; simp at h
  | some x =>
      have hx : x ∈ store := List.mem_of_find?_eq_some hf
      have hp := List.find?_some hf
      rw [hf] at h
      obtain ⟨x1, x2⟩ := x
      simp at hp h
      rw [← hp, ← h]
      exact hx

theorem mapGet_mapSet_self {α : Type} {store : List (Nat × α)} {k : Nat}
    {w : α} (v : α) (h : mapGet store k = some w) :
    mapGet (mapSet store k v) k = some v := by
  induction store with
  | nil => simp [mapGet] at h
  | cons a rest ih =>
      by_cases hk : a.1 = k
      · simp [mapGet, mapSet, List.find?, hk]
      · have hb : (a.1 == k) = false := by simpa using hk
        have h' : mapGet rest k = some w := by
          simpa [mapGet, List.find?, hb] using h
        simpa [mapGet, mapSet, List.find?, hb] using ih h'

theorem mapGet_mapSet_ne {α : Type} (store : List (Nat × α)) (k k' : Nat)
    (v : α) (hne : k' ≠ k) :
    mapGet (mapSet store k v) k' = mapGet store k' := by
  induction store with
  | nil => rfl
  | cons a rest ih =>
      obtain ⟨ak, av⟩ := a
      have hset : mapSet ((ak, av) :: rest) k v =
          (if (ak == k) = true then (ak, v) else (ak, av)) :: mapSet rest k v := by
        simp [mapSet]
      by_cases hk : ak = k
      · have hb : (ak == k) = true := by simpa using hk
        have hb' : (ak == k') = false := by
          have : ak ≠ k' := by omega
          simpa using this
        rw [hset, if_pos hb]
        show mapGet ((ak, v) :: mapSet rest k v) k' = mapGet ((ak, av) :: rest) k'
        simp only [mapGet, List.find?, hb']
        exact ih
      · have hb : (ak == k) = false := by simpa using hk
        rw [hset, if_neg (by simp [hb])]
        show mapGet ((ak, av) :: mapSet rest k v) k' = mapGet ((ak, av) :: rest) k'
        by_cases hk' : ak = k'
        · have hb2 : (ak == k') = true := by simpa using hk'
          simp only [mapGet, List.find?, hb2]
        · have hb2 : (ak == k') = false := by simpa using hk'
          simp only [mapGet, List.find?, hb2]
          exact ih

theorem mapGet_posts_eq_none {i : Nat} (hi : i ∉ ([1, 2, 3, 4] : List Nat)) :
    mapGet posts i = none := by
  apply mapGet_eq_none
  intro kv hkv
  simp [posts] at hkv
  simp at hi
  rcases hkv with h | h | h | h <;> (rw [h]; simp; omega)

theorem mapGet_authors_eq_none {i : Nat} (hi : i ∉ ([1, 2, 3] : List Nat)) :
    mapGet authors i = none := by
  apply mapGet_eq_none
  intro kv hkv
  simp [authors] at hkv
  simp at hi
  rcases hkv with h | h | h <;> (rw [h]; simp; omega)

/-! ### C1: upvotePost on present and absent ids -/

/-- C1: if a post with the given id is present, `upvotePost` increments
that post's `votes` by exactly 1 and returns the updated post (which is
also what the store then holds at that id); if no post with that id is
present — in particular any id outside {1, 2, 3, 4} against the seed
data — it fails with NotFound. -/
theorem C1_upvotePost_spec (P : PostStore) (postId : Nat) :
    (∀ p, mapGet P postId = some p →
      upvotePost P postId =
        Except.ok ({ p with votes := p.votes + 1 },
          mapSet P postId { p with votes := p.votes + 1 }) ∧
      mapGet (mapSet P postId { p with votes := p.votes + 1 }) postId =
        some { p with votes := p.votes + 1 }) ∧
    (mapGet P postId = none →
      upvotePost P postId = Except.error ResolveError.notFound) ∧
    (∀ i, i ∉ ([1, 2, 3, 4] : List Nat) →
      upvotePost posts i = Except.error ResolveError.notFound) := by
  refine ⟨?_, ?_, ?_⟩
  · intro p hp
    exact ⟨by simp [upvotePost, hp], mapGet_mapSet_self _ hp⟩
  · intro h
    simp [upvotePost, h]
  · intro i hi
    simp [upvotePost, mapGet_posts_eq_none hi]

/-- Witness for C1 at concrete inputs: upvoting seed post 1 yields votes 3
and updates the store; ids 5 and 7 are rejected with NotFound. -/
theorem C1_upvotePost_spec_witness :
    upvotePost posts 1 =
      Except.ok ({ post1 with votes := 3 }, mapSet posts 1 { post1 with votes := 3 }) ∧
    upvotePost posts 7 = Except.error ResolveError.notFound ∧
    upvotePost posts 5 = Except.error ResolveError.notFound :=
  ⟨((C1_upvotePost_spec posts 1).1 post1 rfl).1,
   (C1_upvotePost_spec posts 7).2.1 rfl,
   (C1_upvotePost_spec posts 5).2.2 5 (by decide)⟩

/-! ### C2: getAuthor on present and absent ids -/

/-- C2: on a well-keyed store, `getAuthor id` returns the author whose
`id` field equals `id` when one is present, and fails with NotFound (a
distinct error, not a default value) when absent — in particular for any
id outside {1, 2, 3} against the seed data. -/
theorem C2_getAuthor_spec (A : AuthorStore) (id : Nat) :
    (WellKeyedAuthors A →
      ∀ a, mapGet A id = some a → getAuthor A id = Except.ok a ∧ a.id = id) ∧
    (mapGet A id = none →
      getAuthor A id = Except.error ResolveError.notFound) ∧
    (∀ i, i ∉ ([1, 2, 3] : List Nat) →
      getAuthor authors i = Except.error ResolveError.notFound) := by
  refine ⟨?_, ?_, ?_⟩
  · intro hwk a ha
    refine ⟨by simp [getAuthor, ha], ?_⟩
    exact hwk (id, a) (mapGet_mem ha)
  · intro h
    simp [getAuthor, h]
  · intro i hi
    simp [getAuthor, mapGet_authors_eq_none hi]

/-! ### C3: Author.posts filters the post collection by authorId -/

/-- C3: `postsByAuthor` returns exactly the posts whose `authorId` equals
`author.id` (membership and multiplicity), as a subsequence of the store's
values in insertion order, and is empty for an author with no posts. -/
theorem C3_postsByAuthor_spec (P : PostStore) (a : Author) :
    (∀ p, p ∈ postsByAuthor P a ↔ p ∈ mapValues P ∧ p.authorId = a.id) ∧
    (postsByAuthor P a).Sublist (mapValues P) ∧
    (∀ p, p.authorId = a.id →
      (postsByAuthor P a).count p = (mapValues P).count p) ∧
    ((∀ p ∈ mapValues P, p.authorId ≠ a.id) → postsByAuthor P a = []) := by
  refine ⟨?_, ?_, ?_, ?_⟩
  · intro p
    simp [postsByAuthor]
  · exact List.filter_sublist _
  · intro p hp
    exact List.count_filter (by simpa using hp)
  · intro h
    simp only [postsByAuthor, List.filter_eq_nil_iff]
    intro p hp
    simpa using h p hp

/-- Witness for C3 at concrete inputs: author 2's posts are exactly seed
posts 2 and 3, in insertion order. -/
theorem C3_postsByAuthor_spec_witness :
    (post2 ∈ postsByAuthor posts author2 ↔
      post2 ∈ mapValues posts ∧ post2.authorId = author2.id) ∧
    (postsByAuthor posts author2).Sublist (mapValues posts) ∧
    (postsByAuthor posts author2).count post2 = (mapValues posts).count post2 :=
  ⟨(C3_postsByAuthor_spec posts author2).1 post2,
   (C3_postsByAuthor_spec posts author2).2.1,
   (C3_postsByAuthor_spec posts author2).2.2.1 post2 rfl⟩

/-! ### C4: Post.author resolves the foreign key -/

/-- C4: on a well-keyed author store, `authorOfPost` applied to a post
whose `authorId` is present returns the author whose `id` field equals
`post.authorId`. -/
theorem C4_authorOfPost_spec (A : AuthorStore) (p : Post) (a : Author)
    (hwk : WellKeyedAuthors A) (ha : mapGet A p.authorId = some a) :
    authorOfPost A p = some a ∧ a.id = p.authorId :=
  ⟨by simp [authorOfPost, ha], hwk (p.authorId, a) (mapGet_mem ha)⟩

/-- Witness for C4 at concrete inputs: seed post 3 resolves to author 2. -/
theorem C4_authorOfPost_spec_witness :
    authorOfPost authors post3 = some author2 ∧ author2.id = post3.authorId :=
  C4_authorOfPost_spec authors post3 author2
    (by simp [WellKeyedAuthors, authors, author1, author2, author3]) rfl

/-! ### C6: Query.posts lists the whole store -/

/-- C6: `listPosts` returns the full contents of the post store — every
stored post and nothing else, in insertion order, with no filtering,
sorting or pagination; as a pure function each call yields the same full
sequence. -/
theorem C6_listPosts_spec (P : PostStore) :
    listPosts P = mapValues P ∧
    (listPosts P).length = P.length ∧
    (∀ p, p ∈ listPosts P ↔ ∃ k, (k, p) ∈ P) := by
  refine ⟨rfl, by simp [listPosts, mapValues], ?_⟩
  intro p
  constructor
  · intro hp
    obtain ⟨kv, hkv, hv⟩ := List.mem_map.mp hp
    exact ⟨kv.1, by rwa [show (kv.1, p) = kv from by cases kv; simp_all]⟩
  · rintro ⟨k, hk⟩
    exact List.mem_map.mpr ⟨(k, p), hk, rfl⟩

/-- Witness for C2 at concrete inputs: the seed store is well keyed,
author 2 resolves to Sashko Stubailo, and ids 0 and 4 are rejected. -/
theorem C2_getAuthor_spec_witness :
    getAuthor authors 2 = Except.ok author2 ∧
    getAuthor authors 4 = Except.error ResolveError.notFound ∧
    getAuthor authors 0 = Except.error ResolveError.notFound :=
  ⟨((C2_getAuthor_spec authors 2).1
      (by simp [WellKeyedAuthors, authors, author1, author2, author3]) author2 rfl).1,
   (C2_getAuthor_spec authors 4).2.2 4 (by decide),
   (C2_getAuthor_spec authors 0).2.2 0 (by decide)⟩

/-! ### C5: N upvotes add exactly N votes -/

/-- C5: if a post with the given id is present with `votes = v`, then
after calling `upvotePost postId` exactly `N` times in sequence the store
holds that post with `votes = v + N` — never more, never less. -/
theorem C5_upvote_iterated (P : PostStore) (postId : Nat) (p : Post)
    (N : Nat) (h : mapGet P postId = some p) :
    mapGet (upvoteIter P postId N) postId =
      some { p with votes := p.votes + N } := by
  induction N with
  | zero => simpa using h
  | succ n ih =>
      have hstep : upvotePost (upvoteIter P postId n) postId =
          Except.ok ({ p with votes := p.votes + n + 1 },
            mapSet (upvoteIter P postId n) postId
              { p with votes := p.votes + n + 1 }) := by
        simp [upvotePost, ih]
      show mapGet (applyUpvoteStore (upvoteIter P postId n) postId) postId = _
      rw [applyUpvoteStore, hstep]
      exact mapGet_mapSet_self _ ih

/-- Witness for C5 at concrete inputs: three upvotes take seed post 1 from
2 to 5 votes. -/
theorem C5_upvote_iterated_witness :
    mapGet (upvoteIter posts 1 3) 1 = some { post1 with votes := 5 } :=
  C5_upvote_iterated posts 1 post1 3 rfl

/-! ### C7: upvotePost only touches the one post's votes field -/

/-- C7: on a present id, `upvotePost` replaces only the entry at that id,
the replacement agrees with the old post on `id`, `authorId` and `title`
and has `votes` one higher, every other key of the post store reads back
unchanged, and the author store is untouched; moreover no call to the one
mutating operation ever changes the author store. -/
theorem C7_upvote_frame (st : SysState) (postId : Nat) :
    (∀ p, mapGet st.posts postId = some p →
      upvotePostSys st postId =
        Except.ok ({ p with votes := p.votes + 1 },
          SysState.mk st.authors
            (mapSet st.posts postId { p with votes := p.votes + 1 })) ∧
      ({ p with votes := p.votes + 1 } : Post).id = p.id ∧
      ({ p with votes := p.votes + 1 } : Post).authorId = p.authorId ∧
      ({ p with votes := p.votes + 1 } : Post).title = p.title ∧
      ({ p with votes := p.votes + 1 } : Post).votes = p.votes + 1 ∧
      mapGet (mapSet st.posts postId { p with votes := p.votes + 1 }) postId =
        some { p with votes := p.votes + 1 } ∧
      (∀ k, k ≠ postId →
        mapGet (mapSet st.posts postId { p with votes := p.votes + 1 }) k =
          mapGet st.posts k)) ∧
    (applyUpvote st postId).authors = st.authors := by
  constructor
  · intro p hp
    refine ⟨?_, rfl, rfl, rfl, rfl, mapGet_mapSet_self _ hp, ?_⟩
    · simp [upvotePostSys, upvotePost, hp]
    · intro k hk
      exact mapGet_mapSet_ne st.posts postId k _ hk
  · cases hp : mapGet st.posts postId with
    | none => simp [applyUpvote, upvotePostSys, upvotePost, hp]
    | some p => simp [applyUpvote, upvotePostSys, upvotePost, hp]

/-- Witness for C7 at concrete inputs: upvoting seed post 2 rewrites only
that entry and leaves the seed authors map in place. -/
theorem C7_upvote_frame_witness :
    upvotePostSys seedState 2 =
      Except.ok ({ post2 with votes := 4 },
        SysState.mk authors (mapSet posts 2 { post2 with votes := 4 })) ∧
    (applyUpvote seedState 2).authors = seedState.authors :=
  ⟨((C7_upvote_frame seedState 2).1 post2 rfl).1, (C7_upvote_frame seedState 2).2⟩

/-! ### C9: a failed upvote leaves the state unchanged -/

/-- C9: when the id is absent `upvotePost` throws NotFound before touching
anything: the whole process state after the failed call is exactly the
state before it. -/
theorem C9_failed_upvote_frame (st : SysState) (postId : Nat)
    (h : mapGet st.posts postId = none) :
    upvotePostSys st postId = Except.error ResolveError.notFound ∧
    applyUpvote st postId = st := by
  have hu : upvotePost st.posts postId = Except.error ResolveError.notFound := by
    simp [upvotePost, h]
  exact ⟨by simp [upvotePostSys, hu], by simp [applyUpvote, upvotePostSys, hu]⟩

/-- Witness for C9 at a concrete input: upvoting the absent id 99 fails
and leaves the seed state untouched. -/
theorem C9_failed_upvote_frame_witness :
    upvotePostSys seedState 99 = Except.error ResolveError.notFound ∧
    applyUpvote seedState 99 = seedState :=
  C9_failed_upvote_frame seedState 99 rfl

/-! ### C8: referential integrity is an invariant -/

theorem mem_mapValues_mapSet {α : Type} {P : List (Nat × α)} {k : Nat}
    {v q : α} (h : q ∈ mapValues (mapSet P k v)) :
    q = v ∨ q ∈ mapValues P := by
  have hrw : mapValues (mapSet P k v) =
      P.map (fun kv => if (kv.1 == k) = true then v else kv.2) := by
    simp [mapValues, mapSet, Function.comp_def, apply_ite]
  rw [hrw] at h
  obtain ⟨kv, hkv, hq⟩ := List.mem_map.mp h
  by_cases hb : (kv.1 == k) = true
  · rw [if_pos hb] at hq
    exact Or.inl hq.symm
  · rw [if_neg hb] at hq
    exact Or.inr (List.mem_map.mpr ⟨kv, hkv, hq⟩)

theorem mem_mapValues_of_mapGet {α : Type} {P : List (Nat × α)} {k : Nat}
    {v : α} (h : mapGet P k = some v) : v ∈ mapValues P :=
  List.mem_map.mpr ⟨(k, v), mapGet_mem h, rfl⟩

theorem refIntegrity_applyUpvote (st : SysState) (postId : Nat)
    (h : RefIntegrity st.authors st.posts) :
    RefIntegrity (applyUpvote st postId).authors (applyUpvote st postId).posts := by
  cases hp : mapGet st.posts postId with
  | none =>
      have heq : applyUpvote st postId = st := by
        simp [applyUpvote, upvotePostSys, upvotePost, hp]
      rw [heq]
      exact h
  | some p =>
      have heq : applyUpvote st postId =
          SysState.mk st.authors
            (mapSet st.posts postId { p with votes := p.votes + 1 }) := by
        simp [applyUpvote, upvotePostSys, upvotePost, hp]
      rw [heq]
      intro q hq
      rcases mem_mapValues_mapSet hq with hq1 | hq2
      · subst hq1
        exact h p (mem_mapValues_of_mapGet hp)
      · exact h q hq2

theorem refIntegrity_runUpvotes (pids : List Nat) (st : SysState)
    (h : RefIntegrity st.authors st.posts) :
    RefIntegrity (runUpvotes st pids).authors (runUpvotes st pids).posts := by
  induction pids generalizing st with
  | nil => simpa [runUpvotes] using h
  | cons pid rest ih =>
      rw [runUpvotes]
      exact ih _ (refIntegrity_applyUpvote st pid h)

theorem seed_refIntegrity : RefIntegrity authors posts := by
  intro p hp
  simp [mapValues, posts] at hp
  rcases hp with h | h | h | h <;> rw [h]
  · exact ⟨author1, rfl⟩
  · exact ⟨author2, rfl⟩
  · exact ⟨author2, rfl⟩
  · exact ⟨author3, rfl⟩

/-- C8: every post's `authorId` resolves to a stored author in the seed
state and in every state reachable from it by any sequence of
`upvotePost` calls, the only mutating operation. -/
theorem C8_refIntegrity_invariant (pids : List Nat) :
    RefIntegrity seedState.authors seedState.posts ∧
    RefIntegrity (runUpvotes seedState pids).authors
      (runUpvotes seedState pids).posts :=
  ⟨seed_refIntegrity, refIntegrity_runUpvotes pids seedState seed_refIntegrity⟩

/-! ### C10: the resolvers coerce their id argument with Number() -/

theorem isDec_bounds {c : Char} (h : isDec c = true) :
    48 ≤ c.toNat ∧ c.toNat ≤ 57 := by
  simpa [isDec] using h

theorem jsWhitespace_of_isDec {c : Char} (h : isDec c = true) :
    jsWhitespace c = false := by
  have hb := isDec_bounds h
  simp [jsWhitespace]
  omega

theorem isDec_ne {c : Char} (h : isDec c = true) :
    c ≠ '+' ∧ c ≠ '-' ∧ c ≠ 'x' ∧ c ≠ 'X' ∧ c ≠ 'o' ∧ c ≠ 'O' ∧
    c ≠ 'b' ∧ c ≠ 'B' ∧ c ≠ 'I' := by
  have hb := isDec_bounds h
  refine ⟨?_, ?_, ?_, ?_, ?_, ?_, ?_, ?_, ?_⟩ <;> (rintro rfl; revert hb; decide)

theorem trimJs_of_digits {cs : List Char} (h2 : cs.all isDec = true) :
    trimJs cs = cs := by
  have hweak : ∀ c ∈ cs, jsWhitespace c = false := fun c hc =>
    jsWhitespace_of_isDec (List.all_eq_true.mp h2 c hc)
  have d1 : cs.dropWhile jsWhitespace = cs := by
    cases cs with
    | nil => rfl
    | cons a t =>
        have ha := hweak a (List.mem_cons_self a t)
        simp [List.dropWhile_cons, ha]
  rw [trimJs, d1]
  have d2 : cs.reverse.dropWhile jsWhitespace = cs.reverse := by
    cases hr : cs.reverse with
    | nil => rfl
    | cons a t =>
        have ha : a ∈ cs := by
          rw [← List.mem_reverse, hr]
          exact List.mem_cons_self a t
        simp [List.dropWhile_cons, hweak a ha]
  rw [d2, List.reverse_reverse]

theorem parseDecimal_digits {cs : List Char} (h1 : cs ≠ [])
    (h2 : cs.all isDec = true) :
    parseDecimal cs = some ((digitsVal cs : Nat) : Rat) := by
  have ht : cs.takeWhile isDec = cs :=
    List.takeWhile_eq_self_iff.mpr (fun x hx => List.all_eq_true.mp h2 x hx)
  have hd : cs.dropWhile isDec = [] :=
    List.dropWhile_eq_nil_iff.mpr (fun x hx => List.all_eq_true.mp h2 x hx)
  simp only [parseDecimal, ht, hd]
  rw [if_neg h1]
  rfl

theorem parseSignedTail_digits {cs : List Char} (h1 : cs ≠ [])
    (h2 : cs.all isDec = true) :
    parseSignedTail cs false = JsNum.fin ((digitsVal cs : Nat) : Rat) := by
  have hne : cs ≠ "Infinity".toList := by
    cases cs with
    | nil => exact absurd rfl h1
    | cons a t =>
        intro heq
        have ha : isDec a = true := List.all_eq_true.mp h2 a (List.mem_cons_self a t)
        have hI : a = 'I' := by
          have hh := congrArg List.head? heq
          simpa using hh
        exact (isDec_ne ha).2.2.2.2.2.2.2.2 hI
  rw [parseSignedTail, if_neg hne, parseDecimal_digits h1 h2]
  rfl

theorem jsNumberCore_digits {cs : List Char} (h1 : cs ≠ [])
    (h2 : cs.all isDec = true) :
    jsNumberCore cs = JsNum.fin ((digitsVal cs : Nat) : Rat) := by
  cases cs with
  | nil => exact absurd rfl h1
  | cons c rest =>
      have hc : isDec c = true := List.all_eq_true.mp h2 c (List.mem_cons_self c rest)
      have hne := isDec_ne hc
      have hsig := parseSignedTail_digits (List.cons_ne_nil c rest) h2
      show jsNumberHead c rest = _
      rw [jsNumberHead, if_neg hne.1, if_neg hne.2.1]
      by_cases hc0 : c = '0'
      · rw [if_pos hc0]
        cases rest with
        | nil => exact hsig
        | cons c2 rest2 =>
            have hc2 : isDec c2 = true :=
              List.all_eq_true.mp h2 c2 (by simp)
            have hne2 := isDec_ne hc2
            show (if c2 = 'x' ∨ c2 = 'X' then parseRadix 16 rest2
              else if c2 = 'o' ∨ c2 = 'O' then parseRadix 8 rest2
              else if c2 = 'b' ∨ c2 = 'B' then parseRadix 2 rest2
              else parseSignedTail (c :: c2 :: rest2) false) = _
            rw [if_neg (fun h => h.elim hne2.2.2.1 hne2.2.2.2.1),
              if_neg (fun h => h.elim hne2.2.2.2.2.1 hne2.2.2.2.2.2.1),
              if_neg (fun h => h.elim hne2.2.2.2.2.2.2.1 hne2.2.2.2.2.2.2.2.1)]
            exact hsig
      · rw [if_neg hc0]
        exact hsig

theorem jsNumber_digits {s : String} (h1 : s.toList ≠ [])
    (h2 : s.toList.all isDec = true) :
    jsNumber s = JsNum.fin ((digitsVal s.toList : Nat) : Rat) := by
  rw [jsNumber, trimJs_of_digits h2, jsNumberCore_digits h1 h2]

theorem find?_congrPred {α : Type} (p q : α → Bool) (l : List α)
    (h : ∀ a, p a = q a) : l.find? p = l.find? q := by
  induction l with
  | nil => rfl
  | cons a t ih =>
      rw [List.find?, List.find?, h a]
      cases q a
      · exact ih
      · rfl

theorem mapGetJs_fin_nat {α : Type} (store : List (Nat × α)) (n : Nat) :
    mapGetJs store (JsNum.fin (n : Rat)) = mapGet store n := by
  rw [mapGetJs, mapGet]
  congr 1
  apply find?_congrPred
  intro kv
  by_cases h : kv.1 = n
  · simp [h]
  · simp [h]

theorem mapSetJs_fin_nat {α : Type} (store : List (Nat × α)) (n : Nat)
    (v : α) : mapSetJs store (JsNum.fin (n : Rat)) v = mapSet store n v := by
  rw [mapSetJs, mapSet]
  apply List.map_congr_left
  intro kv _
  by_cases h : kv.1 = n
  · simp [h]
  · simp [h]

/-- C10: `Query.author` and `Mutation.upvotePost` coerce their id argument
with `Number()`: on the decimal-digit string form of an id they behave
exactly as on the integer id, and on any string whose coercion is NaN they
fail with NotFound. -/
theorem C10_id_coercion :
    (∀ (A : AuthorStore) (P : PostStore) (s : String) (n : Nat),
      s.toList ≠ [] → s.toList.all isDec = true → digitsVal s.toList = n →
      Query.author A s = getAuthor A n ∧
      Mutation.upvotePost P s = upvotePost P n) ∧
    (∀ (A : AuthorStore) (P : PostStore) (s : String),
      jsNumber s = JsNum.nan →
      Query.author A s = Except.error ResolveError.notFound ∧
      Mutation.upvotePost P s = Except.error ResolveError.notFound) := by
  constructor
  · intro A P s n h1 h2 h3
    have hj : jsNumber s = JsNum.fin (n : Rat) := by
      rw [jsNumber_digits h1 h2, h3]
    constructor
    · cases hm : mapGet A n with
      | none => simp [Query.author, hj, mapGetJs_fin_nat, getAuthor, hm]
      | some a => simp [Query.author, hj, mapGetJs_fin_nat, getAuthor, hm]
    · cases hm : mapGet P n with
      | none => simp [Mutation.upvotePost, hj, mapGetJs_fin_nat, upvotePost, hm]
      | some p =>
          simp [Mutation.upvotePost, hj, mapGetJs_fin_nat, mapSetJs_fin_nat,
            upvotePost, hm]
  · intro A P s hnan
    constructor
    · rw [Query.author, hnan]
      rfl
    · rw [Mutation.upvotePost, hnan]
      rfl

/-- Witness for C10 at concrete inputs: the string "2" behaves as the
integer 2 against both resolvers, and "abc" is NotFound for both. -/
theorem C10_id_coercion_witness :
    (Query.author authors "2" = getAuthor authors 2 ∧
      Mutation.upvotePost posts "2" = upvotePost posts 2) ∧
    (Query.author authors "abc" = Except.error ResolveError.notFound ∧
      Mutation.upvotePost posts "abc" = Except.error ResolveError.notFound) :=
  ⟨C10_id_coercion.1 authors posts "2" 2 (by decide) (by decide) (by decide),
   C10_id_coercion.2 authors posts "abc" (by decide)⟩
